import Mathlib

/-!
# Verification of the maple-robotics content-addressable store

A shallow embedding of the `storage` package and the `rm policy` command of
the maple-robotics repository, together with proofs about the reference
resolver, the blob store, the manifest store, the config codec and the
delete-time garbage collector.

Modelling conventions:

* Byte sequences (`[]byte`, `io.Reader` contents) are `List Nat`.
* The on-disk state is a `Store`: an association list from file name to
  contents for the blob area, and from `(name, tag)` to manifest-file
  content for the manifest area.  File names inside one directory are
  unique, which proofs take as a `NodupKeys` hypothesis where they need it.
* A manifest file either parses as a `Manifest` (`MFile.good`) or is
  unparsable (`MFile.corrupt`); this stands for the two outcomes of
  `json.Unmarshal` in `LoadManifest`.
* `crypto/sha256` is external library code; the embedding is parameterised
  by the hex digest function `hash : Bytes → String`.  No proof depends on
  anything but it being a function (and hex output containing no colon).
* Filesystem failures that do not correspond to store contents
  (permission errors on `os.Remove`, a failing `os.ReadDir`) are modelled
  by explicit fault flags in `FsFaults`, passed beside the store.
-/

namespace Maple

/-- Byte sequences (`[]byte` in Go). -/
abbrev Bytes := List Nat

/-! ## Association-list primitives for directories -/

/-- First-match lookup in an association list (a directory listing). -/
def lookupKey {α β : Type} [DecidableEq α] : List (α × β) → α → Option β
  | [], _ => none
  | (k0, v0) :: t, k => if k = k0 then some v0 else lookupKey t k

/-- Write file `k` with contents `v`: replace the first entry with that
name, or append a fresh one (`os.Rename` over an existing path replaces
it). -/
def insertKey {α β : Type} [DecidableEq α] : List (α × β) → α → β → List (α × β)
  | [], k, v => [(k, v)]
  | (k0, v0) :: t, k, v => if k = k0 then (k, v) :: t else (k0, v0) :: insertKey t k v

/-- Remove the first entry named `k` (`os.Remove`). -/
def removeKey {α β : Type} [DecidableEq α] : List (α × β) → α → List (α × β)
  | [], _ => []
  | (k0, v0) :: t, k => if k = k0 then t else (k0, v0) :: removeKey t k

/-- Number of entries named `k` (number of physical objects under that
file name). -/
def countKey {α β : Type} [DecidableEq α] (l : List (α × β)) (k : α) : Nat :=
  (l.filter (fun p => p.1 = k)).length

/-- The file names of a directory are distinct, as they are on a real
filesystem. -/
def NodupKeys {α β : Type} [DecidableEq α] (l : List (α × β)) : Prop :=
  (l.map Prod.fst).Nodup

instance {α β : Type} [DecidableEq α] (l : List (α × β)) : Decidable (NodupKeys l) := by
  unfold NodupKeys; infer_instance

/-! ## Reference resolver (`ParseModelRef`, src/unnamed/part_010) -/

/-- Split a character list at the first occurrence of `sep`:
returns the part before it and, when `sep` occurs, the part after it.
This is the behaviour of Go's `strings.SplitN(s, sep, 2)`. -/
def splitFirst : List Char → Char → List Char × Option (List Char)
  | [], _ => ([], none)
  | c :: cs, sep =>
    if c = sep then ([], some cs)
    else
      let r := splitFirst cs sep
      (c :: r.1, r.2)

/-- `ParseModelRef` parses "name:tag" into name and tag, defaulting the
tag to "latest" when no colon occurs (src/unnamed/part_010, lines 45-54). -/
def ParseModelRef (ref : String) : String × String :=
  match splitFirst ref.toList ':' with
  | (name, none) => (String.mk name, "latest")
  | (name, some tag) => (String.mk name, String.mk tag)

/-! ## Data model (src/unnamed/part_010, src/storage/config.go) -/

/-- A `Layer` is a reference to a blob: media type, digest, size. -/
structure Layer where
  mediaType : String
  digest : String
  size : Int
  deriving DecidableEq

/-- A `Manifest` describes a model: schema version, media type, one config
layer reference and an ordered list of layer references. -/
structure Manifest where
  schemaVersion : Int
  mediaType : String
  config : Layer
  layers : List Layer
  deriving DecidableEq

/-- Content of one manifest file on disk: either bytes that
`json.Unmarshal` parses to a `Manifest`, or unparsable bytes. -/
inductive MFile
  | good (m : Manifest)
  | corrupt
  deriving DecidableEq

/-- The on-disk store: the blob area (file name to contents, under
`~/.maple/blobs`) and the manifest area (`(name, tag)` to manifest file,
under `~/.maple/manifests/<name>/<tag>`). -/
structure Store where
  blobs : List (String × Bytes)
  manifests : List ((String × String) × MFile)
  deriving DecidableEq

/-- Filesystem faults that are not part of the store contents:
`listFault` makes `os.ReadDir` on the manifests directory fail with an
error other than not-exist; `removeFault` makes `os.Remove` on a manifest
path fail (e.g. a permission error). -/
structure FsFaults where
  listFault : Bool
  removeFault : Bool
  deriving DecidableEq

/-- Error kinds surfaced by the store: a missing file
(`os.IsNotExist`-satisfying error), an unparsable file (a `json` error,
a distinct kind), and other filesystem errors. -/
inductive StoreErr
  | notFound
  | corrupt
  | ioFailure
  deriving DecidableEq

/-! ## Blob store (src/storage/blob.go) -/

/-- Replace the first occurrence of `a` by `b`
(Go `strings.Replace(s, a, b, 1)` for one-character patterns). -/
def replaceFirst : List Char → Char → Char → List Char
  | [], _, _ => []
  | c :: cs, a, b => if c = a then b :: cs else c :: replaceFirst cs a b

/-- `BlobPath` gives the blob's file name inside the blobs directory,
normalising `sha256:abc` to `sha256-abc` (src/storage/blob.go, lines
14-23; the constant directory prefix is dropped since all blobs live in
the one directory). -/
def BlobPath (digest : String) : String :=
  String.mk (replaceFirst digest.toList ':' '-')

/-- `BlobExists` checks whether a blob file exists (src/storage/blob.go,
lines 26-38). -/
def BlobExists (st : Store) (digest : String) : Bool :=
  (lookupKey st.blobs (BlobPath digest)).isSome

/-- `OpenBlob` opens a blob for reading; a missing file is the not-found
error of `os.Open` (src/storage/blob.go, lines 54-60). -/
def OpenBlob (st : Store) (digest : String) : Except StoreErr Bytes :=
  match lookupKey st.blobs (BlobPath digest) with
  | some b => .ok b
  | none => .error .notFound

/-- `WriteBlob` hashes the input while writing it to a temp file in the
blobs directory, then renames the temp file to the digest-derived final
name, returning digest and byte count (src/storage/blob.go, lines 63-95).
The sha256 hex digest is the parameter `hash`; the temp file does not
survive the rename, so the resulting state holds the bytes under the
final name only.  The error paths (unwritable temp area, failing rename)
are not modelled: no claim is about them. -/
def WriteBlob (hash : Bytes → String) (st : Store) (b : Bytes) :
    String × Int × Store :=
  let digest := "sha256-" ++ hash b
  (digest, (b.length : Int), { st with blobs := insertKey st.blobs digest b })

/-- `DeleteBlob` removes a blob file; `os.Remove` fails not-found when the
file is absent (src/storage/blob.go, lines 98-104). -/
def DeleteBlob (st : Store) (digest : String) : Except StoreErr Store :=
  if (lookupKey st.blobs (BlobPath digest)).isSome then
    .ok { st with blobs := removeKey st.blobs (BlobPath digest) }
  else .error .notFound

/-! ## Manifest store (src/unnamed/part_010) -/

/-- `ManifestExists` checks whether the manifest file for `(name, tag)`
exists (src/unnamed/part_010, lines 97-107; the `os.Stat` fault branch
that is neither success nor not-exist is not modelled). -/
def ManifestExists (st : Store) (name tag : String) : Bool :=
  (lookupKey st.manifests (name, tag)).isSome

/-- `LoadManifest` reads and parses the manifest file: a missing file
surfaces the not-found error of `os.ReadFile`, an unparsable one the
distinct `json.Unmarshal` error (src/unnamed/part_010, lines 77-94). -/
def LoadManifest (st : Store) (name tag : String) : Except StoreErr Manifest :=
  match lookupKey st.manifests (name, tag) with
  | none => .error .notFound
  | some .corrupt => .error .corrupt
  | some (.good m) => .ok m

/-- `DeleteManifest` removes the manifest file with `os.Remove`
(src/unnamed/part_010, lines 110-116); with `removeFault` set the remove
fails with a filesystem error and the store is unchanged. -/
def DeleteManifest (fs : FsFaults) (st : Store) (name tag : String) :
    Except StoreErr Store :=
  if fs.removeFault then .error .ioFailure
  else if (lookupKey st.manifests (name, tag)).isSome then
    .ok { st with manifests := removeKey st.manifests (name, tag) }
  else .error .notFound

/-- `ListManifests` walks the manifest area and returns all refs as
"name:tag" strings (src/unnamed/part_010, lines 119-154); with
`listFault` set the directory read fails and the Go function returns a
nil slice beside the error. -/
def ListManifests (fs : FsFaults) (st : Store) : Except StoreErr (List String) :=
  if fs.listFault then .error .ioFailure
  else .ok (st.manifests.map (fun e => e.1.1 ++ ":" ++ e.1.2))

/-! ## SaveManifest as a trace of filesystem operations

For the atomicity question the relevant facts are *which* filesystem
calls `SaveManifest` makes and on which paths, so it is embedded as the
sequence of effects it performs. -/

/-- One filesystem effect. -/
inductive FsOp
  | mkdirAll (dir : String)
  | writeFile (path : String) (data : Bytes)
  | createTemp (dir : String)
  | rename (src dst : String)
  deriving DecidableEq

/-- `ManifestPath` derives the manifest file path from `(name, tag)`
relative to the manifests directory (src/unnamed/part_010, lines 35-41). -/
def ManifestPath (name tag : String) : String :=
  name ++ "/" ++ tag

/-- The filesystem effects of `SaveManifest name tag m`
(src/unnamed/part_010, lines 57-74): `os.MkdirAll` on the parent
directory, then a single direct `os.WriteFile` at the final path.  `data`
stands for the `json.MarshalIndent` serialization of the manifest. -/
def SaveManifestOps (name tag : String) (data : Bytes) : List FsOp :=
  [FsOp.mkdirAll name, FsOp.writeFile (ManifestPath name tag) data]

/-- Whether an effect is a rename. -/
def FsOp.isRename : FsOp → Bool
  | .rename _ _ => true
  | _ => false

/-- Whether an effect is a temp-file creation. -/
def FsOp.isCreateTemp : FsOp → Bool
  | .createTemp _ => true
  | _ => false

/-- Whether an effect writes file contents directly at `path`. -/
def FsOp.writesTo (path : String) : FsOp → Bool
  | .writeFile p _ => p = path
  | _ => false

/-! ## Config codec (src/storage/config.go)

`encoding/json` is external library code; the codec is embedded at the
level of JSON values, mirroring the struct tags of `Config`
(`omitempty` on the three optional fields) for `json.MarshalIndent` and
the zero-value defaulting of `json.Unmarshal` for absent keys. -/

/-- JSON values. -/
inductive Json
  | null
  | str (s : String)
  | num (n : Int)
  | jbool (b : Bool)
  | arr (elems : List Json)
  | obj (fields : List (String × Json))

/-- `Config` holds model metadata (src/storage/config.go, lines 8-25). -/
structure Config where
  architecture : String
  family : String
  parameterSize : String
  actionDim : Int
  imageSize : Int
  environments : List String
  hfRepo : String
  embodimentTag : String
  dataConfig : String
  deriving DecidableEq

/-- `ToJSON` (src/storage/config.go, lines 37-39) as a JSON value:
`json.Marshal` of the `Config` struct emits every field under its tag
name; the three `omitempty` fields are omitted when empty. -/
def Config.toJson (c : Config) : Json :=
  .obj ([("architecture", .str c.architecture),
         ("family", .str c.family),
         ("parameter_size", .str c.parameterSize),
         ("action_dim", .num c.actionDim),
         ("image_size", .num c.imageSize),
         ("environments", .arr (c.environments.map .str))]
    ++ (if c.hfRepo = "" then [] else [("hf_repo", .str c.hfRepo)])
    ++ (if c.embodimentTag = "" then [] else [("embodiment_tag", .str c.embodimentTag)])
    ++ (if c.dataConfig = "" then [] else [("data_config", .str c.dataConfig)]))

/-- Decode a JSON value into a string field: an absent key or a JSON
null leaves the zero value `""`; any other non-string value is a type
error. -/
def strField (fields : List (String × Json)) (k : String) : Option String :=
  match lookupKey fields k with
  | none => some ""
  | some (.str s) => some s
  | some .null => some ""
  | some _ => none

/-- Decode a JSON value into an int field: absent or null keeps the zero
value `0`. -/
def intField (fields : List (String × Json)) (k : String) : Option Int :=
  match lookupKey fields k with
  | none => some 0
  | some (.num n) => some n
  | some .null => some 0
  | some _ => none

/-- Decode a JSON array of strings element by element (a null element
keeps the element zero value `""`). -/
def jsonToStrs : List Json → Option (List String)
  | [] => some []
  | .str s :: t => (jsonToStrs t).map (s :: ·)
  | .null :: t => (jsonToStrs t).map ("" :: ·)
  | _ => none

/-- Decode a JSON value into the `[]string` field: absent or null keeps
the zero value (nil slice). -/
def strsField (fields : List (String × Json)) (k : String) :
    Option (List String) :=
  match lookupKey fields k with
  | none => some []
  | some .null => some []
  | some (.arr xs) => jsonToStrs xs
  | some _ => none

/-- `ConfigFromJSON` (src/storage/config.go, lines 28-34) on a JSON
value: `json.Unmarshal` into the `Config` struct matches keys by tag
name, ignores unknown keys, leaves zero values for absent ones, and
fails on a value of the wrong type or a non-object document. -/
def ConfigFromJSON : Json → Option Config
  | .obj fields => do
    let architecture ← strField fields "architecture"
    let family ← strField fields "family"
    let parameterSize ← strField fields "parameter_size"
    let actionDim ← intField fields "action_dim"
    let imageSize ← intField fields "image_size"
    let environments ← strsField fields "environments"
    let hfRepo ← strField fields "hf_repo"
    let embodimentTag ← strField fields "embodiment_tag"
    let dataConfig ← strField fields "data_config"
    some ⟨architecture, family, parameterSize, actionDim, imageSize,
          environments, hfRepo, embodimentTag, dataConfig⟩
  | _ => none

/-! ## The `rm policy` command (src/unnamed/part_012, lines 20-84)

This is the delete-time garbage collector: resolve the target, load its
manifest, collect candidate digests, delete the manifest, recompute the
digests referenced by the remaining manifests, and delete the candidates
that are not referenced. -/

/-- All digests referenced by a manifest: the config digest followed by
the layer digests (src/unnamed/part_012, lines 47-50). -/
def manifestDigests (m : Manifest) : List String :=
  m.config.digest :: m.layers.map Layer.digest

/-- Outcome of `rm policy`: the three abort paths (each a distinct
stderr message and exit 1) and the success path.  `warnings` collects
stderr lines emitted during the sweep between the manifest deletion and
the final report; the Go loop prints nothing there. -/
inductive RmResult
  | notFoundMsg
  | loadErr (e : StoreErr)
  | deleteManifestErr (e : StoreErr)
  | success (removed : Nat) (warnings : List String)
  deriving DecidableEq

/-- One iteration of the referenced-set loop (src/unnamed/part_012,
lines 62-70): parse the ref, add its manifest's digests when it loads,
skip it silently otherwise. -/
def refStep (st : Store) (acc : List String) (r : String) : List String :=
  let nt := ParseModelRef r
  match LoadManifest st nt.1 nt.2 with
  | .ok m => acc ++ manifestDigests m
  | .error _ => acc

/-- The digest set referenced by the given refs: each ref is parsed and
its manifest loaded; a load failure skips that ref silently
(src/unnamed/part_012, lines 60-70). -/
def referencedSet (st : Store) (refs : List String) : List String :=
  refs.foldl (refStep st) []

/-- One iteration of the blob-deletion loop (src/unnamed/part_012, lines
74-80): skip a referenced digest; otherwise delete the blob, counting
the deletion when it succeeds. -/
def sweepStep (referenced : List String) (acc : Nat × Store) (d : String) :
    Nat × Store :=
  if d ∈ referenced then acc
  else match DeleteBlob acc.2 d with
    | .ok st1 => (acc.1 + 1, st1)
    | .error _ => acc

/-- The blob-deletion sweep (src/unnamed/part_012, lines 72-80): for each
candidate digest not in the referenced set, delete the blob, counting the
deletions that succeed. -/
def sweepBlobs (referenced : List String) (digests : List String)
    (st : Store) : Nat × Store :=
  digests.foldl (sweepStep referenced) (0, st)

/-- The value of the discarded-error assignment in the Go source: on an
error the slice returned beside it is nil (src/unnamed/part_012, line
59). -/
def orEmpty (r : Except StoreErr (List String)) : List String :=
  match r with
  | .ok rs => rs
  | .error _ => []

/-- The `rm policy MODEL` command body (src/unnamed/part_012, lines
24-83): parse the ref; report "model not found" when the manifest is
absent; abort on a manifest load or delete error; otherwise delete the
manifest, recompute the referenced set from the remaining refs (a
failing `ListManifests` is discarded, leaving the nil slice; a failing
`LoadManifest` on another ref is skipped), and delete the unreferenced
candidate blobs. -/
def rmPolicy (fs : FsFaults) (st : Store) (ref : String) : RmResult × Store :=
  let nt := ParseModelRef ref
  if ManifestExists st nt.1 nt.2 then
    match LoadManifest st nt.1 nt.2 with
    | .error e => (.loadErr e, st)
    | .ok m =>
      match DeleteManifest fs st nt.1 nt.2 with
      | .error e => (.deleteManifestErr e, st)
      | .ok st1 =>
        let referenced := referencedSet st1 (orEmpty (ListManifests fs st1))
        let swept := sweepBlobs referenced (manifestDigests m) st1
        (.success swept.1 [], swept.2)
  else (.notFoundMsg, st)

/-! ## Lemmas about the directory primitives -/

theorem lookupKey_insertKey_self {α β : Type} [DecidableEq α]
    (l : List (α × β)) (k : α) (v : β) :
    lookupKey (insertKey l k v) k = some v := by
  induction l with
  | nil => simp [insertKey, lookupKey]
  | cons hd t ih =>
    obtain ⟨k0, v0⟩ := hd
    by_cases h : k = k0
    · simp [insertKey, h, lookupKey]
    · simp [insertKey, h, lookupKey, ih]

theorem lookupKey_eq_none_of_not_mem {α β : Type} [DecidableEq α]
    {l : List (α × β)} {k : α} (h : k ∉ l.map Prod.fst) :
    lookupKey l k = none := by
  induction l with
  | nil => rfl
  | cons hd t ih =>
    obtain ⟨k0, v0⟩ := hd
    simp only [List.map_cons, List.mem_cons] at h
    push_neg at h
    simp [lookupKey, h.1, ih h.2]

theorem lookupKey_mem {α β : Type} [DecidableEq α]
    {l : List (α × β)} {k : α} {v : β} (h : lookupKey l k = some v) :
    (k, v) ∈ l := by
  induction l with
  | nil => simp [lookupKey] at h
  | cons hd t ih =>
    obtain ⟨k0, v0⟩ := hd
    by_cases hk : k = k0
    · subst hk
      simp [lookupKey] at h
      simp [h]
    · simp [lookupKey, hk] at h
      exact List.mem_cons_of_mem _ (ih h)

theorem countKey_eq_zero_of_not_mem {α β : Type} [DecidableEq α]
    {l : List (α × β)} {k : α} (h : k ∉ l.map Prod.fst) :
    countKey l k = 0 := by
  unfold countKey
  rw [List.length_eq_zero, List.filter_eq_nil]
  intro p hp hdec
  apply h
  rw [decide_eq_true_iff] at hdec
  exact hdec ▸ List.mem_map_of_mem Prod.fst hp

theorem countKey_insertKey_self {α β : Type} [DecidableEq α]
    {l : List (α × β)} (hnd : NodupKeys l) (k : α) (v : β) :
    countKey (insertKey l k v) k = 1 := by
  induction l with
  | nil => simp [insertKey, countKey]
  | cons hd t ih =>
    obtain ⟨k0, v0⟩ := hd
    unfold NodupKeys at hnd
    simp only [List.map_cons, List.nodup_cons] at hnd
    by_cases h : k = k0
    · subst h
      have h0 : countKey t k = 0 := countKey_eq_zero_of_not_mem hnd.1
      simp [insertKey, countKey] at h0 ⊢
      exact h0
    · have ht : countKey (insertKey t k v) k = 1 := ih hnd.2
      simp [insertKey, h, countKey] at ht ⊢
      simpa [Ne.symm h] using ht

theorem lookupKey_removeKey_ne {α β : Type} [DecidableEq α]
    (l : List (α × β)) {k k0 : α} (h : k ≠ k0) :
    lookupKey (removeKey l k0) k = lookupKey l k := by
  induction l with
  | nil => rfl
  | cons hd t ih =>
    obtain ⟨k1, v1⟩ := hd
    by_cases h1 : k0 = k1
    · subst h1
      simp [removeKey, lookupKey, h]
    · by_cases h2 : k = k1
      · simp [removeKey, h1, lookupKey, h2]
      · simp [removeKey, h1, lookupKey, h2, ih]

theorem lookupKey_removeKey_of_none {α β : Type} [DecidableEq α]
    (l : List (α × β)) (k0 : α) {k : α}
    (h : lookupKey l k = none) :
    lookupKey (removeKey l k0) k = none := by
  induction l with
  | nil => rfl
  | cons hd t ih =>
    obtain ⟨k1, v1⟩ := hd
    by_cases h2 : k = k1
    · simp [lookupKey, h2] at h
    · simp only [lookupKey, if_neg h2] at h
      by_cases h1 : k0 = k1
      · simpa [removeKey, h1, lookupKey, h2] using h
      · simp [removeKey, h1, lookupKey, h2, ih h]

theorem lookupKey_removeKey_self {α β : Type} [DecidableEq α]
    {l : List (α × β)} (hnd : NodupKeys l) (k : α) :
    lookupKey (removeKey l k) k = none := by
  induction l with
  | nil => rfl
  | cons hd t ih =>
    obtain ⟨k1, v1⟩ := hd
    unfold NodupKeys at hnd
    simp only [List.map_cons, List.nodup_cons] at hnd
    by_cases h : k = k1
    · subst h
      simp [removeKey, lookupKey_eq_none_of_not_mem hnd.1]
    · simp [removeKey, Ne.symm h, lookupKey, h, ih hnd.2]

theorem mem_removeKey {α β : Type} [DecidableEq α]
    {l : List (α × β)} {k : α} {p : α × β} (h : p ∈ removeKey l k) :
    p ∈ l := by
  induction l with
  | nil => simpa [removeKey] using h
  | cons hd t ih =>
    obtain ⟨k1, v1⟩ := hd
    by_cases h1 : k = k1
    · simp only [removeKey, if_pos h1] at h
      exact List.mem_cons_of_mem _ h
    · simp only [removeKey, if_neg h1, List.mem_cons] at h
      rcases h with h | h
      · simp [h]
      · exact List.mem_cons_of_mem _ (ih h)

theorem removeKey_nodup {α β : Type} [DecidableEq α]
    {l : List (α × β)} (hnd : NodupKeys l) (k : α) :
    NodupKeys (removeKey l k) := by
  induction l with
  | nil => exact hnd
  | cons hd t ih =>
    obtain ⟨k1, v1⟩ := hd
    unfold NodupKeys at hnd ⊢
    simp only [List.map_cons, List.nodup_cons] at hnd
    by_cases h : k = k1
    · simpa [removeKey, h] using hnd.2
    · simp only [removeKey, if_neg h, List.map_cons, List.nodup_cons]
      refine ⟨fun hmem => ?_, ih hnd.2⟩
      obtain ⟨p, hp, hp1⟩ := List.mem_map.mp hmem
      exact hnd.1 (hp1 ▸ List.mem_map_of_mem Prod.fst (mem_removeKey hp))

/-! ## Lemmas about the reference resolver -/

theorem splitFirst_of_not_mem {l : List Char} {sep : Char} (h : sep ∉ l) :
    splitFirst l sep = (l, none) := by
  induction l with
  | nil => rfl
  | cons c cs ih =>
    simp only [List.mem_cons] at h
    push_neg at h
    simp [splitFirst, Ne.symm h.1, ih h.2]

theorem splitFirst_append {n : List Char} {sep : Char} (t : List Char)
    (h : sep ∉ n) :
    splitFirst (n ++ sep :: t) sep = (n, some t) := by
  induction n with
  | nil => simp [splitFirst]
  | cons c cs ih =>
    simp only [List.mem_cons] at h
    push_neg at h
    simp [splitFirst, Ne.symm h.1, ih h.2]

/-- Parsing a ref built from a colon-free name and an arbitrary tag
recovers the pair: the split happens at the first colon. -/
theorem parseModelRef_concat (n t : String) (h : ':' ∉ n.toList) :
    ParseModelRef (n ++ ":" ++ t) = (n, t) := by
  have hdata : (n ++ ":" ++ t).toList = n.toList ++ ':' :: t.toList := by
    simp [String.toList, String.data_append]
  unfold ParseModelRef
  rw [hdata, splitFirst_append _ h]
  rfl

/-- Parsing a colon-free ref yields the ref itself with tag "latest". -/
theorem parseModelRef_no_colon (r : String) (h : ':' ∉ r.toList) :
    ParseModelRef r = (r, "latest") := by
  unfold ParseModelRef
  rw [splitFirst_of_not_mem h]
  rfl

/-! ## Claim theorems: reference resolver -/

/-- C5: ParseModelRef is total and pure (it is a Lean function), splits
on the first colon only, defaults an absent tag to "latest", and maps
"openvla" to ("openvla","latest"), "openvla:7b" to ("openvla","7b") and
"a:b:c" to ("a","b:c"). -/
theorem parseModelRef_spec :
    (∀ n t : String, ':' ∉ n.toList → ParseModelRef (n ++ ":" ++ t) = (n, t)) ∧
    (∀ r : String, ':' ∉ r.toList → ParseModelRef r = (r, "latest")) ∧
    ParseModelRef "openvla" = ("openvla", "latest") ∧
    ParseModelRef "openvla:7b" = ("openvla", "7b") ∧
    ParseModelRef "a:b:c" = ("a", "b:c") :=
  ⟨parseModelRef_concat, parseModelRef_no_colon, by decide, by decide, by decide⟩

/-- Witness for C5 at concrete inputs. -/
theorem parseModelRef_spec_witness :
    ParseModelRef ("ab" ++ ":" ++ "c:d") = ("ab", "c:d") ∧
    ParseModelRef "openvla" = ("openvla", "latest") :=
  ⟨parseModelRef_spec.1 "ab" "c:d" (by decide), parseModelRef_spec.2.2.1⟩

/-! ## Claim theorems: blob store -/

theorem replaceFirst_of_not_mem {l : List Char} {a : Char} (b : Char)
    (h : a ∉ l) : replaceFirst l a b = l := by
  induction l with
  | nil => rfl
  | cons c cs ih =>
    simp only [List.mem_cons] at h
    push_neg at h
    simp [replaceFirst, Ne.symm h.1, ih h.2]

/-- The blob file name of a colon-free digest is the digest itself. -/
theorem blobPath_of_no_colon {d : String} (h : ':' ∉ d.toList) :
    BlobPath d = d := by
  unfold BlobPath
  rw [replaceFirst_of_not_mem _ h]
  rfl

/-- The digest returned by WriteBlob is colon-free whenever the hex
output of the hash is. -/
theorem writeBlob_digest_no_colon (hash : Bytes → String) (b : Bytes)
    (h : ':' ∉ (hash b).toList) :
    ':' ∉ ("sha256-" ++ hash b).toList := by
  intro hmem
  have : ("sha256-" ++ hash b).toList = "sha256-".toList ++ (hash b).toList := by
    simp [String.toList, String.data_append]
  rw [this, List.mem_append] at hmem
  rcases hmem with hmem | hmem
  · exact absurd hmem (by decide)
  · exact h hmem

/-- C2: writing bytes b with WriteBlob and then opening the blob under
the returned digest yields exactly b (and the returned size is the byte
count).  The hypothesis states that the hex digest contains no colon,
which holds of every hex string. -/
theorem writeBlob_then_open (hash : Bytes → String) (st : Store) (b : Bytes)
    (h : ':' ∉ (hash b).toList) :
    OpenBlob (WriteBlob hash st b).2.2 (WriteBlob hash st b).1 = .ok b ∧
    (WriteBlob hash st b).2.1 = (b.length : Int) := by
  refine ⟨?_, rfl⟩
  unfold WriteBlob OpenBlob
  rw [blobPath_of_no_colon (writeBlob_digest_no_colon hash b h)]
  simp [lookupKey_insertKey_self]

/-- Witness for C2 at a concrete hash function, store and byte list. -/
theorem writeBlob_then_open_witness :
    OpenBlob (WriteBlob (fun _ => "ab12") ⟨[], []⟩ [7, 9]).2.2
      (WriteBlob (fun _ => "ab12") ⟨[], []⟩ [7, 9]).1 = .ok [7, 9] :=
  (writeBlob_then_open (fun _ => "ab12") ⟨[], []⟩ [7, 9] (by decide)).1

/-- Every entry of the directory after a write was already there or is
the written file. -/
theorem mem_insertKey {α β : Type} [DecidableEq α]
    {l : List (α × β)} {k : α} {v : β} {p : α × β}
    (h : p ∈ insertKey l k v) : p ∈ l ∨ p = (k, v) := by
  induction l with
  | nil => simpa [insertKey] using h
  | cons hd t ih =>
    obtain ⟨k0, v0⟩ := hd
    by_cases h0 : k = k0
    · subst h0
      simp only [insertKey, eq_self_iff_true, if_true, List.mem_cons] at h
      rcases h with h | h
      · exact Or.inr h
      · exact Or.inl (List.mem_cons_of_mem _ h)
    · simp only [insertKey, if_neg h0, List.mem_cons] at h
      rcases h with h | h
      · exact Or.inl (by simp [h])
      · rcases ih h with h1 | h1
        · exact Or.inl (List.mem_cons_of_mem _ h1)
        · exact Or.inr h1

/-- Keys of the blob area stay distinct across a WriteBlob. -/
theorem insertKey_nodup {α β : Type} [DecidableEq α]
    {l : List (α × β)} (hnd : NodupKeys l) (k : α) (v : β) :
    NodupKeys (insertKey l k v) := by
  induction l with
  | nil => simp [insertKey, NodupKeys]
  | cons hd t ih =>
    obtain ⟨k0, v0⟩ := hd
    unfold NodupKeys at hnd ⊢
    simp only [List.map_cons, List.nodup_cons] at hnd
    by_cases h : k = k0
    · subst h
      have he : insertKey ((k, v0) :: t) k v = (k, v) :: t := by
        simp [insertKey]
      rw [he]
      simp only [List.map_cons, List.nodup_cons]
      exact hnd
    · have he : insertKey ((k0, v0) :: t) k v = (k0, v0) :: insertKey t k v := by
        simp [insertKey, h]
      rw [he]
      simp only [List.map_cons, List.nodup_cons]
      refine ⟨fun hmem => ?_, ih hnd.2⟩
      obtain ⟨p, hp, hp1⟩ := List.mem_map.mp hmem
      rcases mem_insertKey hp with h1 | h1
      · exact hnd.1 (hp1 ▸ List.mem_map_of_mem Prod.fst h1)
      · exact h (by rw [← hp1, h1])

/-- C3: WriteBlob called twice on the same bytes returns the same digest
both times, and afterwards exactly one physical object exists in the
blob area under that digest (the second write replaces the first via the
rename, leaving one file). -/
theorem writeBlob_idempotent (hash : Bytes → String) (st : Store) (b : Bytes)
    (hnd : NodupKeys st.blobs) :
    (WriteBlob hash (WriteBlob hash st b).2.2 b).1 = (WriteBlob hash st b).1 ∧
    countKey (WriteBlob hash (WriteBlob hash st b).2.2 b).2.2.blobs
      (WriteBlob hash st b).1 = 1 := by
  refine ⟨rfl, ?_⟩
  unfold WriteBlob
  exact countKey_insertKey_self (insertKey_nodup hnd _ _) _ _

/-- Witness for C3 at a concrete hash function, store and byte list. -/
theorem writeBlob_idempotent_witness :
    NodupKeys (Store.mk [("f", [0])] []).blobs ∧
    countKey (WriteBlob (fun _ => "ab12")
        (WriteBlob (fun _ => "ab12") ⟨[("f", [0])], []⟩ [7]).2.2 [7]).2.2.blobs
      (WriteBlob (fun _ => "ab12") ⟨[("f", [0])], []⟩ [7]).1 = 1 :=
  ⟨by decide,
   (writeBlob_idempotent (fun _ => "ab12") ⟨[("f", [0])], []⟩ [7] (by decide)).2⟩

/-! ## Claim theorems: manifest loading error kinds -/

/-- C8: LoadManifest fails with the not-found kind when no manifest file
exists and with the corrupt kind — a distinct error kind — when the file
exists but does not parse as a manifest. -/
theorem loadManifest_error_kinds (st : Store) (n t : String) :
    (lookupKey st.manifests (n, t) = none →
      LoadManifest st n t = .error .notFound) ∧
    (lookupKey st.manifests (n, t) = some .corrupt →
      LoadManifest st n t = .error .corrupt) ∧
    StoreErr.corrupt ≠ StoreErr.notFound := by
  refine ⟨fun h => ?_, fun h => ?_, by decide⟩ <;> simp [LoadManifest, h]

/-- Witness for C8: an absent manifest and a corrupt manifest file. -/
theorem loadManifest_error_kinds_witness :
    LoadManifest ⟨[], []⟩ "a" "b" = .error .notFound ∧
    LoadManifest ⟨[], [(("a", "b"), .corrupt)]⟩ "a" "b" = .error .corrupt :=
  ⟨(loadManifest_error_kinds ⟨[], []⟩ "a" "b").1 rfl,
   (loadManifest_error_kinds ⟨[], [(("a", "b"), .corrupt)]⟩ "a" "b").2.1 rfl⟩

/-! ## Claim theorems: config codec -/

theorem jsonToStrs_map_str (xs : List String) :
    jsonToStrs (xs.map Json.str) = some xs := by
  induction xs with
  | nil => rfl
  | cons x t ih => simp [jsonToStrs, ih]

/-- C9: decoding the encoding of any Config value gives back exactly that
value.  The omitempty optional fields are omitted by the encoder when
empty and defaulted to the empty string by the decoder when absent, so
empty string and absent key coincide. -/
theorem config_encode_decode (c : Config) :
    ConfigFromJSON (Config.toJson c) = some c := by
  obtain ⟨a, f, p, ad, im, env, hf, em, dc⟩ := c
  unfold Config.toJson ConfigFromJSON
  by_cases h1 : hf = "" <;> by_cases h2 : em = "" <;> by_cases h3 : dc = "" <;>
    simp [h1, h2, h3, strField, intField, strsField, lookupKey,
      jsonToStrs_map_str]

/-! ## Claim theorems: SaveManifest write discipline -/

/-- Counterexample to C6: at the concrete input ("m", "latest", two
bytes of serialized manifest), the effect trace of SaveManifest contains
no rename and no temp-file creation, but does write directly at the
final manifest path, so the overwrite is not a temp+rename atomic one. -/
theorem saveManifest_no_rename :
    (SaveManifestOps "m" "latest" [1, 2]).any FsOp.isRename = false ∧
    (SaveManifestOps "m" "latest" [1, 2]).any FsOp.isCreateTemp = false ∧
    (SaveManifestOps "m" "latest" [1, 2]).any
      (FsOp.writesTo (ManifestPath "m" "latest")) = true := by
  decide

/-- C6 amended: for every (name, tag) and serialized manifest,
SaveManifest creates the parent directory and then writes the data
directly at the final path with a single os.WriteFile; it performs no
temp-file creation and no rename, so the overwrite is not atomic and a
concurrent reader can observe a partially written manifest file. -/
theorem saveManifest_writes_final_path_directly
    (name tag : String) (data : Bytes) :
    SaveManifestOps name tag data =
      [FsOp.mkdirAll name, FsOp.writeFile (ManifestPath name tag) data] ∧
    (SaveManifestOps name tag data).any FsOp.isRename = false ∧
    (SaveManifestOps name tag data).any FsOp.isCreateTemp = false :=
  ⟨rfl, rfl, rfl⟩

/-! ## Lemmas about the garbage collector -/

/-- A successful LoadManifest comes from a stored parsable file. -/
theorem loadManifest_ok_lookup {st : Store} {n t : String} {m : Manifest}
    (h : LoadManifest st n t = .ok m) :
    lookupKey st.manifests (n, t) = some (.good m) := by
  cases hl : lookupKey st.manifests (n, t) with
  | none => simp [LoadManifest, hl] at h
  | some f =>
    cases f with
    | corrupt => simp [LoadManifest, hl] at h
    | good m2 =>
      simp [LoadManifest, hl] at h
      rw [h]

/-- A stored parsable file loads successfully. -/
theorem loadManifest_of_lookup {st : Store} {n t : String} {m : Manifest}
    (h : lookupKey st.manifests (n, t) = some (.good m)) :
    LoadManifest st n t = .ok m := by
  simp [LoadManifest, h]

/-- A successful DeleteManifest removes exactly the manifest file and
leaves the blob area untouched. -/
theorem deleteManifest_ok {fs : FsFaults} {st : Store} {n t : String}
    {st1 : Store} (h : DeleteManifest fs st n t = .ok st1) :
    st1.manifests = removeKey st.manifests (n, t) ∧ st1.blobs = st.blobs := by
  unfold DeleteManifest at h
  by_cases h1 : fs.removeFault
  · simp [h1] at h
  · simp only [h1, Bool.false_eq_true, if_false] at h
    by_cases h2 : (lookupKey st.manifests (n, t)).isSome
    · simp only [h2, if_true, Except.ok.injEq] at h
      rw [← h]
      exact ⟨rfl, rfl⟩
    · simp [h2] at h

/-- DeleteManifest succeeds on a present manifest when no remove fault is
injected. -/
theorem deleteManifest_ok_of (fs : FsFaults) (st : Store) (n t : String)
    (hrf : fs.removeFault = false)
    (hsome : (lookupKey st.manifests (n, t)).isSome = true) :
    DeleteManifest fs st n t = .ok ⟨st.blobs, removeKey st.manifests (n, t)⟩ := by
  simp [DeleteManifest, hrf, hsome]

/-- One sweep iteration never touches the manifest area. -/
theorem sweepStep_manifests (r : List String) (acc : Nat × Store)
    (d : String) : (sweepStep r acc d).2.manifests = acc.2.manifests := by
  unfold sweepStep DeleteBlob
  by_cases h : d ∈ r
  · simp [h]
  · by_cases h2 : (lookupKey acc.2.blobs (BlobPath d)).isSome = true
    · simp [h, h2]
    · simp [h, h2]

/-- The whole sweep never touches the manifest area. -/
theorem sweep_fold_manifests (r : List String) (ds : List String) :
    ∀ acc : Nat × Store,
      (List.foldl (sweepStep r) acc ds).2.manifests = acc.2.manifests := by
  induction ds with
  | nil => intro acc; rfl
  | cons d t ih =>
    intro acc
    rw [List.foldl_cons, ih, sweepStep_manifests]

/-- One sweep iteration keeps any blob file whose name cannot be the
name of a deleted candidate. -/
theorem sweepStep_blob_preserved (r : List String) (acc : Nat × Store)
    (d : String) {p : String} {bs : Bytes}
    (hne : d ∉ r → BlobPath d ≠ p)
    (h : lookupKey acc.2.blobs p = some bs) :
    lookupKey (sweepStep r acc d).2.blobs p = some bs := by
  unfold sweepStep DeleteBlob
  by_cases hr : d ∈ r
  · simpa [hr] using h
  · by_cases h2 : (lookupKey acc.2.blobs (BlobPath d)).isSome = true
    · simp only [if_neg hr, h2, if_true]
      rw [lookupKey_removeKey_ne _ (Ne.symm (hne hr))]
      exact h
    · simpa [hr, h2] using h

/-- The sweep keeps any blob file not named by an unreferenced
candidate. -/
theorem sweep_fold_blob_preserved (r : List String) {p : String} {bs : Bytes} :
    ∀ (ds : List String) (acc : Nat × Store),
      (∀ d ∈ ds, d ∉ r → BlobPath d ≠ p) →
      lookupKey acc.2.blobs p = some bs →
      lookupKey (List.foldl (sweepStep r) acc ds).2.blobs p = some bs := by
  intro ds
  induction ds with
  | nil => intro acc _ h; exact h
  | cons d t ih =>
    intro acc hne h
    rw [List.foldl_cons]
    refine ih _ (fun x hx => hne x (List.mem_cons_of_mem _ hx)) ?_
    exact sweepStep_blob_preserved r acc d (hne d (List.mem_cons_self d t)) h

/-- One sweep iteration keeps the blob-area file names distinct. -/
theorem sweepStep_nodup (r : List String) (acc : Nat × Store) (d : String)
    (h : NodupKeys acc.2.blobs) : NodupKeys (sweepStep r acc d).2.blobs := by
  unfold sweepStep DeleteBlob
  by_cases hr : d ∈ r
  · simpa [hr] using h
  · by_cases h2 : (lookupKey acc.2.blobs (BlobPath d)).isSome = true
    · simp only [if_neg hr, h2, if_true]
      exact removeKey_nodup h _
    · simpa [hr, h2] using h

/-- A blob file name absent from the blob area stays absent through the
sweep. -/
theorem sweep_fold_none (r : List String) :
    ∀ (ds : List String) (acc : Nat × Store) (p : String),
      lookupKey acc.2.blobs p = none →
      lookupKey (List.foldl (sweepStep r) acc ds).2.blobs p = none := by
  intro ds
  induction ds with
  | nil => intro acc p h; exact h
  | cons d t ih =>
    intro acc p h
    rw [List.foldl_cons]
    refine ih _ _ ?_
    unfold sweepStep DeleteBlob
    by_cases hr : d ∈ r
    · simpa [hr] using h
    · by_cases h2 : (lookupKey acc.2.blobs (BlobPath d)).isSome = true
      · simp only [if_neg hr, h2, if_true]
        exact lookupKey_removeKey_of_none _ _ h
      · simpa [hr, h2] using h

/-- Every unreferenced candidate's blob file is gone after the sweep. -/
theorem sweep_fold_deletes (r : List String) :
    ∀ (ds : List String) (acc : Nat × Store), NodupKeys acc.2.blobs →
      ∀ d ∈ ds, d ∉ r →
      lookupKey (List.foldl (sweepStep r) acc ds).2.blobs (BlobPath d) = none := by
  intro ds
  induction ds with
  | nil => intro acc _ d hd; cases hd
  | cons d0 t ih =>
    intro acc hnd d hd hdr
    rw [List.foldl_cons]
    rcases List.mem_cons.mp hd with heq | hmem
    · subst heq
      apply sweep_fold_none
      unfold sweepStep DeleteBlob
      by_cases h2 : (lookupKey acc.2.blobs (BlobPath d)).isSome = true
      · simp only [if_neg hdr, h2, if_true]
        exact lookupKey_removeKey_self hnd _
      · cases hl : lookupKey acc.2.blobs (BlobPath d) with
        | none => simpa [hdr, h2] using hl
        | some v => rw [hl] at h2; simp at h2
    · exact ih _ (sweepStep_nodup r acc d0 hnd) d hmem hdr

/-- Digests already accumulated stay in the referenced set. -/
theorem refs_fold_mono (st : Store) {d : String} :
    ∀ (refs : List String) (acc : List String), d ∈ acc →
      d ∈ List.foldl (refStep st) acc refs := by
  intro refs
  induction refs with
  | nil => intro acc h; exact h
  | cons r t ih =>
    intro acc h
    rw [List.foldl_cons]
    refine ih _ ?_
    simp only [refStep]
    cases LoadManifest st (ParseModelRef r).1 (ParseModelRef r).2 with
    | ok m => exact List.mem_append_left _ h
    | error e => exact h

/-- Any digest of any ref that parses and loads contributes to the
referenced set. -/
theorem mem_referenced_of_load (st : Store) {r n t : String}
    {m : Manifest} {d : String}
    (hparse : ParseModelRef r = (n, t))
    (hload : LoadManifest st n t = .ok m) (hd : d ∈ manifestDigests m) :
    ∀ (refs : List String), r ∈ refs →
      ∀ acc, d ∈ List.foldl (refStep st) acc refs := by
  intro refs
  induction refs with
  | nil => intro hr; cases hr
  | cons r0 rest ih =>
    intro hr acc
    rw [List.foldl_cons]
    rcases List.mem_cons.mp hr with heq | hmem
    · subst heq
      apply refs_fold_mono
      unfold refStep
      rw [hparse]
      simp only [hload]
      exact List.mem_append_right _ hd
    · exact ih hmem _

/-! ## Characterisation of the rm-policy branches -/

theorem rmPolicy_eq_notFound (fs : FsFaults) (st : Store) (ref : String)
    (hex : ManifestExists st (ParseModelRef ref).1 (ParseModelRef ref).2 = false) :
    rmPolicy fs st ref = (.notFoundMsg, st) := by
  simp [rmPolicy, hex]

theorem rmPolicy_eq_loadErr (fs : FsFaults) (st : Store) (ref : String)
    (e : StoreErr)
    (hex : ManifestExists st (ParseModelRef ref).1 (ParseModelRef ref).2 = true)
    (hl : LoadManifest st (ParseModelRef ref).1 (ParseModelRef ref).2 = .error e) :
    rmPolicy fs st ref = (.loadErr e, st) := by
  simp [rmPolicy, hex, hl]

theorem rmPolicy_eq_deleteErr (fs : FsFaults) (st : Store) (ref : String)
    (m : Manifest) (e : StoreErr)
    (hex : ManifestExists st (ParseModelRef ref).1 (ParseModelRef ref).2 = true)
    (hl : LoadManifest st (ParseModelRef ref).1 (ParseModelRef ref).2 = .ok m)
    (hdm : DeleteManifest fs st (ParseModelRef ref).1 (ParseModelRef ref).2 = .error e) :
    rmPolicy fs st ref = (.deleteManifestErr e, st) := by
  simp [rmPolicy, hex, hl, hdm]

theorem rmPolicy_eq_success (fs : FsFaults) (st : Store) (ref : String)
    (m : Manifest) (st1 : Store)
    (hex : ManifestExists st (ParseModelRef ref).1 (ParseModelRef ref).2 = true)
    (hl : LoadManifest st (ParseModelRef ref).1 (ParseModelRef ref).2 = .ok m)
    (hdm : DeleteManifest fs st (ParseModelRef ref).1 (ParseModelRef ref).2 = .ok st1) :
    rmPolicy fs st ref =
      (.success (sweepBlobs (referencedSet st1 (orEmpty (ListManifests fs st1)))
          (manifestDigests m) st1).1 [],
        (sweepBlobs (referencedSet st1 (orEmpty (ListManifests fs st1)))
          (manifestDigests m) st1).2) := by
  simp [rmPolicy, hex, hl, hdm]

/-! ## Claim theorems: garbage collector -/

/-- C7: when the target reference has no manifest, the rm command yields
its own nothing-was-removed report (the dedicated model-not-found
message, a distinct outcome from the propagated storage errors of the
load and delete paths) and leaves the store untouched. -/
theorem rm_absent_target_nothing_removed
    (fs : FsFaults) (st : Store) (ref n t : String)
    (hparse : ParseModelRef ref = (n, t))
    (hex : ManifestExists st n t = false) :
    rmPolicy fs st ref = (.notFoundMsg, st) := by
  apply rmPolicy_eq_notFound
  rw [hparse]
  exact hex

/-- Witness for C7: removing a ref from an empty store. -/
theorem rm_absent_target_witness :
    rmPolicy ⟨false, false⟩ ⟨[], []⟩ "x" = (.notFoundMsg, ⟨[], []⟩) :=
  rm_absent_target_nothing_removed ⟨false, false⟩ ⟨[], []⟩ "x" "x" "latest"
    (by decide) rfl

/-- C4: when deleting the target manifest fails, the rm command aborts
with the manifest-deletion error before touching any blob: the whole
store — in particular the blob area — is exactly as before. -/
theorem rm_manifest_delete_failure_aborts
    (fs : FsFaults) (st : Store) (ref n t : String) (m : Manifest)
    (e : StoreErr)
    (hparse : ParseModelRef ref = (n, t))
    (hload : LoadManifest st n t = .ok m)
    (hdel : DeleteManifest fs st n t = .error e) :
    rmPolicy fs st ref = (.deleteManifestErr e, st) := by
  have hex : ManifestExists st n t = true := by
    simp [ManifestExists, loadManifest_ok_lookup hload]
  apply rmPolicy_eq_deleteErr fs st ref m
  · rw [hparse]; exact hex
  · rw [hparse]; exact hload
  · rw [hparse]; exact hdel

/-- Witness for C4: a store with one manifest and one blob, plus an
injected permission fault on the manifest remove. -/
theorem rm_manifest_delete_failure_witness :
    rmPolicy ⟨false, true⟩
      ⟨[("sha256-aa", [1])],
        [(("m", "latest"), .good ⟨2, "mt", ⟨"ct", "sha256-aa", 1⟩, []⟩)]⟩ "m" =
      (.deleteManifestErr .ioFailure,
        ⟨[("sha256-aa", [1])],
          [(("m", "latest"), .good ⟨2, "mt", ⟨"ct", "sha256-aa", 1⟩, []⟩)]⟩) :=
  rm_manifest_delete_failure_aborts ⟨false, true⟩
    ⟨[("sha256-aa", [1])],
      [(("m", "latest"), .good ⟨2, "mt", ⟨"ct", "sha256-aa", 1⟩, []⟩)]⟩
    "m" "m" "latest" ⟨2, "mt", ⟨"ct", "sha256-aa", 1⟩, []⟩ .ioFailure
    (by decide) rfl rfl

/-! ## Canonical digests

Digests written by the program itself (WriteBlob) have the form
"sha256-hex" and contain no colon, so the BlobPath normalisation is the
identity on them.  A store is canonical when every digest mentioned by a
parsable manifest is colon-free. -/

/-- A digest string containing no colon. -/
def digestCanon (d : String) : Bool :=
  d.toList.all (fun c => c != ':')

/-- Every digest of a parsable manifest file is canonical. -/
def mfileCanon : MFile → Bool
  | .good m => (manifestDigests m).all digestCanon
  | .corrupt => true

/-- Every manifest in the store mentions only canonical digests. -/
def storeCanon (st : Store) : Bool :=
  st.manifests.all (fun e => mfileCanon e.2)

theorem digestCanon_no_colon {d : String} (h : digestCanon d = true) :
    ':' ∉ d.toList := by
  intro hm
  have h2 := List.all_eq_true.mp h _ hm
  simp at h2

theorem storeCanon_digests {st : Store} {p : String × String} {m : Manifest}
    (hc : storeCanon st = true)
    (hl : lookupKey st.manifests p = some (.good m)) :
    ∀ d ∈ manifestDigests m, ':' ∉ d.toList := by
  intro d hd
  have hmem := lookupKey_mem hl
  have h2 := List.all_eq_true.mp hc _ hmem
  unfold mfileCanon at h2
  exact digestCanon_no_colon (List.all_eq_true.mp h2 _ hd)

/-- C1: in a store whose manifests use canonical digests and whose
remaining manifest at another reference (with a colon-free name, as all
program-created names are) still references digest d, the rm command on
the target never deletes the blob for d: afterwards d is still present
with the same bytes and the other reference still loads, so d stays
openable through it.  The listFault hypothesis says the directory walk
over the remaining manifests works, i.e. the sweep actually sees them. -/
theorem rm_preserves_shared_blob
    (fs : FsFaults) (st : Store) (ref : String)
    (n2 t2 : String) (m2 : Manifest) (d : String) (bs : Bytes)
    (hlist : fs.listFault = false)
    (hcanon : storeCanon st = true)
    (hother : lookupKey st.manifests (n2, t2) = some (.good m2))
    (hne : (n2, t2) ≠ ParseModelRef ref)
    (hcolon : ':' ∉ n2.toList)
    (hd : d ∈ manifestDigests m2)
    (hblob : OpenBlob st d = .ok bs) :
    OpenBlob (rmPolicy fs st ref).2 d = .ok bs ∧
    LoadManifest (rmPolicy fs st ref).2 n2 t2 = .ok m2 := by
  have hblobL : lookupKey st.blobs (BlobPath d) = some bs := by
    unfold OpenBlob at hblob
    cases hl : lookupKey st.blobs (BlobPath d) with
    | none => rw [hl] at hblob; cases hblob
    | some v => rw [hl] at hblob; cases hblob; rfl
  by_cases hex : ManifestExists st (ParseModelRef ref).1 (ParseModelRef ref).2 = true
  case neg =>
    rw [rmPolicy_eq_notFound fs st ref (by revert hex; cases hm : ManifestExists st (ParseModelRef ref).1 (ParseModelRef ref).2 <;> simp)]
    exact ⟨hblob, loadManifest_of_lookup hother⟩
  case pos =>
    cases hl : LoadManifest st (ParseModelRef ref).1 (ParseModelRef ref).2 with
    | error e =>
      rw [rmPolicy_eq_loadErr fs st ref e hex hl]
      exact ⟨hblob, loadManifest_of_lookup hother⟩
    | ok m =>
      cases hdm : DeleteManifest fs st (ParseModelRef ref).1 (ParseModelRef ref).2 with
      | error e =>
        rw [rmPolicy_eq_deleteErr fs st ref m e hex hl hdm]
        exact ⟨hblob, loadManifest_of_lookup hother⟩
      | ok st1 =>
        rw [rmPolicy_eq_success fs st ref m st1 hex hl hdm]
        obtain ⟨hman1, hblobs1⟩ := deleteManifest_ok hdm
        have hother1 : lookupKey st1.manifests (n2, t2) = some (.good m2) := by
          rw [hman1]
          rw [lookupKey_removeKey_ne _ (by simpa using hne)]
          exact hother
        have hrefs : orEmpty (ListManifests fs st1) =
            st1.manifests.map (fun e => e.1.1 ++ ":" ++ e.1.2) := by
          simp [ListManifests, hlist, orEmpty]
        have hrmem : (n2 ++ ":" ++ t2) ∈ orEmpty (ListManifests fs st1) := by
          rw [hrefs]
          exact List.mem_map_of_mem _ (lookupKey_mem hother1)
        have hdref : d ∈ referencedSet st1 (orEmpty (ListManifests fs st1)) := by
          unfold referencedSet
          exact mem_referenced_of_load st1 (parseModelRef_concat n2 t2 hcolon)
            (loadManifest_of_lookup hother1) hd _ hrmem []
        have htlook : lookupKey st.manifests
            ((ParseModelRef ref).1, (ParseModelRef ref).2) = some (.good m) :=
          loadManifest_ok_lookup hl
        have htcanon : ∀ d0 ∈ manifestDigests m, ':' ∉ d0.toList :=
          storeCanon_digests hcanon htlook
        have hdcanon : ':' ∉ d.toList := storeCanon_digests hcanon hother d hd
        have hkeep : lookupKey
            (sweepBlobs (referencedSet st1 (orEmpty (ListManifests fs st1)))
              (manifestDigests m) st1).2.blobs (BlobPath d) = some bs := by
          unfold sweepBlobs
          apply sweep_fold_blob_preserved
          · intro d0 hd0 hd0r
            rw [blobPath_of_no_colon (htcanon d0 hd0),
              blobPath_of_no_colon hdcanon]
            intro heq
            exact hd0r (heq ▸ hdref)
          · rw [hblobs1]; exact hblobL
        constructor
        · unfold OpenBlob
          rw [hkeep]
        · apply loadManifest_of_lookup
          unfold sweepBlobs
          rw [sweep_fold_manifests]
          exact hother1

/-- Witness for C1: two manifests sharing one blob; removing one leaves
the blob openable. -/
theorem rm_preserves_shared_blob_witness :
    OpenBlob (rmPolicy ⟨false, false⟩
      ⟨[("sha256-aa", [1])],
        [(("m", "latest"), .good ⟨2, "mt", ⟨"ct", "sha256-aa", 1⟩, []⟩),
         (("m", "v2"), .good ⟨2, "mt", ⟨"ct", "sha256-aa", 1⟩, []⟩)]⟩ "m").2
      "sha256-aa" = .ok [1] :=
  (rm_preserves_shared_blob ⟨false, false⟩
    ⟨[("sha256-aa", [1])],
      [(("m", "latest"), .good ⟨2, "mt", ⟨"ct", "sha256-aa", 1⟩, []⟩),
       (("m", "v2"), .good ⟨2, "mt", ⟨"ct", "sha256-aa", 1⟩, []⟩)]⟩ "m"
    "m" "v2" ⟨2, "mt", ⟨"ct", "sha256-aa", 1⟩, []⟩ "sha256-aa" [1]
    rfl (by decide) rfl (by decide) (by decide) (by decide) rfl).1

/-- C10: failures during the sweep silently shrink the reachable set.
First part: when enumerating the remaining references fails, the error
is discarded and the sweep proceeds with an empty reachable set, so
every candidate blob of the target manifest (config plus all layers) is
deleted — even while another remaining manifest still references one of
them — and the command still reports success with no warning printed.
Second part, at a concrete input: when another manifest file is
unparsable, its load failure drops its digests from the reachable set
silently, the shared blob is deleted and the command reports success
with no warning. -/
theorem rm_sweep_failures_unprotect :
    (∀ (fs : FsFaults) (st : Store) (ref n t : String) (m : Manifest)
        (n2 t2 : String) (m2 : Manifest) (d : String),
      fs.listFault = true →
      fs.removeFault = false →
      ParseModelRef ref = (n, t) →
      lookupKey st.manifests (n, t) = some (.good m) →
      NodupKeys st.blobs →
      lookupKey st.manifests (n2, t2) = some (.good m2) →
      (n2, t2) ≠ (n, t) →
      d ∈ manifestDigests m → d ∈ manifestDigests m2 →
      (∃ k, (rmPolicy fs st ref).1 = .success k []) ∧
        (∀ d0 ∈ manifestDigests m,
          lookupKey (rmPolicy fs st ref).2.blobs (BlobPath d0) = none)) ∧
    rmPolicy ⟨false, false⟩
      ⟨[("sha256-aa", [65])],
        [(("m", "latest"), .good ⟨2, "mt", ⟨"ct", "sha256-aa", 1⟩, []⟩),
         (("m", "v2"), .corrupt)]⟩ "m" =
      (.success 1 [], ⟨[], [(("m", "v2"), .corrupt)]⟩) := by
  constructor
  · intro fs st ref n t m n2 t2 m2 d hlf hrf hparse htarget hnd hother hne hdm hdm2
    have hex : ManifestExists st (ParseModelRef ref).1 (ParseModelRef ref).2 = true := by
      rw [hparse]
      simp [ManifestExists, htarget]
    have hl : LoadManifest st (ParseModelRef ref).1 (ParseModelRef ref).2 = .ok m := by
      rw [hparse]
      exact loadManifest_of_lookup htarget
    have hdel : DeleteManifest fs st (ParseModelRef ref).1 (ParseModelRef ref).2 =
        .ok ⟨st.blobs, removeKey st.manifests (n, t)⟩ := by
      rw [hparse]
      exact deleteManifest_ok_of fs st n t hrf (by simp [htarget])
    rw [rmPolicy_eq_success fs st ref m _ hex hl hdel]
    have hempty : referencedSet ⟨st.blobs, removeKey st.manifests (n, t)⟩
        (orEmpty (ListManifests fs ⟨st.blobs, removeKey st.manifests (n, t)⟩)) =
        [] := by
      simp [ListManifests, hlf, orEmpty, referencedSet]
    rw [hempty]
    refine ⟨⟨_, rfl⟩, fun d0 hd0 => ?_⟩
    unfold sweepBlobs
    exact sweep_fold_deletes [] _ _ hnd d0 hd0 (List.not_mem_nil d0)
  · rfl

/-- Witness for C10's first part: with a failing directory enumeration,
the blob shared with a second, intact manifest is deleted anyway. -/
theorem rm_sweep_failures_unprotect_witness :
    lookupKey (rmPolicy ⟨true, false⟩
      ⟨[("sha256-aa", [1])],
        [(("m", "latest"), .good ⟨2, "mt", ⟨"ct", "sha256-aa", 1⟩, []⟩),
         (("m", "v2"), .good ⟨2, "mt", ⟨"ct", "sha256-aa", 1⟩, []⟩)]⟩
      "m").2.blobs (BlobPath "sha256-aa") = none :=
  (rm_sweep_failures_unprotect.1 ⟨true, false⟩
    ⟨[("sha256-aa", [1])],
      [(("m", "latest"), .good ⟨2, "mt", ⟨"ct", "sha256-aa", 1⟩, []⟩),
       (("m", "v2"), .good ⟨2, "mt", ⟨"ct", "sha256-aa", 1⟩, []⟩)]⟩
    "m" "m" "latest" ⟨2, "mt", ⟨"ct", "sha256-aa", 1⟩, []⟩
    "m" "v2" ⟨2, "mt", ⟨"ct", "sha256-aa", 1⟩, []⟩ "sha256-aa"
    rfl rfl (by decide) rfl (by decide) rfl (by decide) (by decide)
    (by decide)).2 "sha256-aa" (by decide)

end Maple
